import Mathlib

/-!
Verification of `generate_index.py` (GuysMusicApp): a one-shot indexer that
walks a three-level music directory layout (root → artist → album → file),
filters audio files by extension, normalizes names to Unicode NFC, and emits
a JSON list of album records.

The filesystem is embedded shallowly: a directory listing is a list of named
entries carrying the `os.path.isdir` classification the script queries, and
the script's nested `for` loops over `os.listdir` results become folds over
those lists.  `uuid.uuid4()` is modelled as a fresh-identifier supply indexed
by a run-local counter (successive draws are distinct, which is the property
the script relies on).  JSON serialization is out of scope of the claims
about the traversal; the `__main__` entry point is modelled as a function
from the state of the filesystem root to a trace of its observable effects.
-/

namespace MusicIndex

/-- Unicode NFC canonical composition, as `unicodedata.normalize('NFC', s)`
(called at `generate_index.py` lines 29, 30 and 43).  Full Unicode NFC is a
large table; this development models it exactly on the fragment of Unicode it
exercises: a Latin vowel followed by U+0301 COMBINING ACUTE ACCENT composes
into the precomposed accented character, and every other character sequence
appearing in this development is already NFC-normal, so composition leaves it
unchanged. -/
def composeAcute (c : Char) : Option Char :=
  if c = 'a' then some 'á'
  else if c = 'e' then some 'é'
  else if c = 'i' then some 'í'
  else if c = 'o' then some 'ó'
  else if c = 'u' then some 'ú'
  else if c = 'A' then some 'Á'
  else if c = 'E' then some 'É'
  else if c = 'I' then some 'Í'
  else if c = 'O' then some 'Ó'
  else if c = 'U' then some 'Ú'
  else none

/-- NFC composition pass over a character list (see `composeAcute`). -/
def nfcChars : List Char → List Char
  | [] => []
  | [c] => [c]
  | c :: m :: rest =>
    if m = '\u0301' then
      match composeAcute c with
      | some cc => cc :: nfcChars rest
      | none => c :: nfcChars (m :: rest)
    else c :: nfcChars (m :: rest)

/-- `unicodedata.normalize('NFC', s)` on strings (see `nfcChars`). -/
def nfc (s : String) : String := String.mk (nfcChars s.data)

/-- Python's `str.lower` on one character, modelled on the ASCII range it is
exercised on here (the audio-extension allow-list is pure ASCII). -/
def lowerChar (c : Char) : Char :=
  if 65 <= c.toNat && c.toNat <= 90 then Char.ofNat (c.toNat + 32) else c

/-- `song_filename.lower()` (line 42): Python's `str.lower`, charwise. -/
def strLower (s : String) : String := String.mk (s.data.map lowerChar)

/-- Character-list version of the `str.startswith` test: does the first list
start with the second? -/
def charsStartWith : List Char → List Char → Bool
  | _, [] => true
  | [], _ :: _ => false
  | c :: s, p :: ps => c = p && charsStartWith s ps

/-- Python's `str.startswith` (lines 23 and 26). -/
def strStartsWith (s p : String) : Bool := charsStartWith s.data p.data

/-- Python's `str.endswith` for one suffix (line 42). -/
def strEndsWith (s p : String) : Bool :=
  charsStartWith s.data.reverse p.data.reverse

/-- The audio-extension test of `generate_index.py` line 42:
`song_filename.lower().endswith(('.mp3', '.m4a', '.flac', '.wav'))`.
Python's tuple `endswith` is a disjunction of the four suffix tests. -/
def allowedExt (s : String) : Bool :=
  let l := strLower s
  strEndsWith l ".mp3" || strEndsWith l ".m4a" || strEndsWith l ".flac" ||
    strEndsWith l ".wav"

/-- `os.path.splitext(p)[0]` (line 44) for names without a path separator:
the extension starts at the last dot, unless every character before the last
dot is itself a dot (so `".bashrc"` has no extension).  Helper: given the
reversed character list, drop the (reversed) extension through the first dot;
`none` when there is no dot. -/
def dropExtRev : List Char → Option (List Char)
  | [] => none
  | c :: rest => if c = '.' then some rest else dropExtRev rest

/-- `os.path.splitext(p)[0]` (line 44) for plain file names (no `/`). -/
def splitextRoot (s : String) : String :=
  let cs := s.data
  let rest := cs.dropWhile (fun c => c = '.')
  if rest.contains '.' then
    match dropExtRev cs.reverse with
    | some r => String.mk r.reverse
    | none => s
  else s

/-- A song entry of the index (`song_entry`, lines 49–55).  `id` holds the
index of the `uuid.uuid4()` draw that produced it (see the file comment). -/
structure SongRecord where
  id : Nat
  title : String
  artist : String
  album : String
  relativePath : String
  deriving Repr, DecidableEq

/-- An album record of the index (`all_albums[album_key]`, lines 34–38). -/
structure AlbumRecord where
  name : String
  artist : String
  songs : List SongRecord
  deriving Repr, DecidableEq

/-- A directory entry listed inside an album directory, with the name and
the `os.path.isdir` classification the filesystem would report for it (the
script never queries `isdir`/`isfile` at this level, see line 40–42). -/
structure FileEntry where
  name : String
  isDir : Bool
  deriving Repr, DecidableEq

/-- A directory entry listed inside an artist directory: its name, its
`os.path.isdir` classification (queried at line 26), and — when it is a
directory — the listing `os.listdir(album_path)` would return (line 40). -/
structure AlbumDir where
  name : String
  isDir : Bool
  files : List FileEntry
  deriving Repr, DecidableEq

/-- A directory entry listed at the root: its name, its `os.path.isdir`
classification (queried at line 23), and the listing `os.listdir(artist_path)`
would return (line 24). -/
structure ArtistDir where
  name : String
  isDir : Bool
  albums : List AlbumDir
  deriving Repr, DecidableEq

/-- The `all_albums` dict (line 15): Python dicts preserve insertion order
and hold one record per key, modelled as an association list with distinct
keys, new keys appended at the end. -/
abbrev Albums := List (String × AlbumRecord)

/-- `album_key in all_albums` / `all_albums[album_key]` lookup (line 33). -/
def findAlbum (key : String) : Albums → Option AlbumRecord
  | [] => none
  | (k, r) :: rest => if k = key then some r else findAlbum key rest

/-- `all_albums[album_key]["songs"].append(...)` (line 57), generalized to
appending a batch of songs to the record stored under `key`; the script's
single append is the singleton instance.  A missing key leaves the state
unchanged (the script only appends to keys it has created, line 33–38). -/
def appendSongs (key : String) (ss : List SongRecord) : Albums → Albums
  | [] => []
  | (k, r) :: rest =>
    if k = key then (k, { r with songs := r.songs ++ ss }) :: rest
    else (k, r) :: appendSongs key ss rest

/-- The `song_entry` built at lines 43–55 for a file named `fname` under
normalized artist/album names `aN`/`bN`, when the id counter reads `n`:
the file name is NFC-normalized, the title is the name without extension,
and the relative path joins the three normalized components with `/`. -/
def mkSong (aN bN fname : String) (n : Nat) : SongRecord :=
  let fN := nfc fname
  { id := n
    title := splitextRoot fN
    artist := aN
    album := bN
    relativePath := aN ++ "/" ++ bN ++ "/" ++ fN }

/-- The inner `for song_filename in os.listdir(album_path)` loop
(lines 40–57): fold over the album directory's entries, appending a song for
every entry whose name passes `allowedExt`, threading the `(all_albums, id
counter)` state. -/
def processSongs (aN bN key : String) (files : List FileEntry)
    (st : Albums × Nat) : Albums × Nat :=
  files.foldl
    (fun st f =>
      if allowedExt f.name then
        (appendSongs key [mkSong aN bN f.name st.2] st.1, st.2 + 1)
      else st)
    st

/-- The body of the `for album_name in os.listdir(artist_path)` loop
(lines 24–57): skip non-directories and hidden names (line 26), normalize
both names (lines 29–30), create the album record when its key is new
(lines 32–38), then process the album's files. -/
def processAlbum (artistName : String) (alb : AlbumDir)
    (st : Albums × Nat) : Albums × Nat :=
  if alb.isDir && !strStartsWith alb.name "." then
    let aN := nfc artistName
    let bN := nfc alb.name
    let key := aN ++ "-" ++ bN
    let m :=
      match findAlbum key st.1 with
      | some _ => st.1
      | none => st.1 ++ [(key, { name := bN, artist := aN, songs := [] })]
    processSongs aN bN key alb.files (m, st.2)
  else st

/-- The body of the `for artist_name in os.listdir(root_folder)` loop
(lines 20–57): skip non-directories and hidden names (line 23), then walk
the artist's album entries. -/
def processArtist (art : ArtistDir) (st : Albums × Nat) : Albums × Nat :=
  if art.isDir && !strStartsWith art.name "." then
    art.albums.foldl (fun st alb => processAlbum art.name alb st) st
  else st

/-- The whole traversal of `create_music_index` (lines 15–57): fold the
artist loop over the root listing, starting from an empty dict and the first
unused id. -/
def scanAlbums (root : List ArtistDir) : Albums × Nat :=
  root.foldl (fun st art => processArtist art st) ([], 0)

/-- `album_list = list(all_albums.values())` (line 60): the Index the spec's
`buildIndex(rootPath)` operation returns, given the listing of the root. -/
def buildIndex (root : List ArtistDir) : List AlbumRecord :=
  (scanAlbums root).1.map Prod.snd

/-- Normal form of the songs the inner loop (lines 40–57) appends for a
file listing, starting from id counter `n`: one `mkSong` per entry passing
`allowedExt`, with consecutive ids.  Related to `processSongs` by
`processSongs_eq` below. -/
def mkSongs (aN bN : String) : List FileEntry → Nat → List SongRecord
  | [], _ => []
  | f :: fs, n =>
    if allowedExt f.name then mkSong aN bN f.name n :: mkSongs aN bN fs (n + 1)
    else mkSongs aN bN fs n

/-- Number of entries of a listing that pass the extension filter; how far
the id counter advances over that listing. -/
def countAllowed (files : List FileEntry) : Nat :=
  (files.filter (fun f => allowedExt f.name)).length

/-! ### The `__main__` entry point (lines 70–82)

`runMain` maps the state of the configured root path to the observable
effects of one invocation: the lines printed to stdout, the file written
(path and content), and whether `create_music_index` ran.  `root = none`
models `os.path.isdir(music_directory)` returning `False` (path missing or
not a directory); `root = some listing` models a readable root directory.
The final JSON write is modelled as succeeding; failed directory listings
are covered by the fallible model `runMainE` below. -/

/-- The hardcoded root path (line 75). -/
def music_directory : String := "./Music"

/-- The output path `os.path.join(music_directory, 'index.json')` (line 79). -/
def output_file : String := music_directory ++ "/index.json"

/-- The scan-start line printed at line 17. -/
def startMsg : String := "Starting scan in: " ++ music_directory

/-- The success line printed at line 66. -/
def successMsg (albumCount : Nat) : String :=
  "Successfully created \x27" ++ output_file ++ "\x27 with " ++
    toString albumCount ++ " albums."

/-- The first diagnostic printed at line 81 when the root is missing. -/
def missingMsg1 : String :=
  "Error: The specified directory does not exist: \x27" ++ music_directory ++ "\x27"

/-- The second diagnostic printed at line 82 when the root is missing. -/
def missingMsg2 : String :=
  "Please create it and place your music inside, or change the \x27music_directory\x27 variable."

/-- Observable effects of one program invocation. -/
structure RunResult where
  printed : List String
  wrote : Option (String × List AlbumRecord)
  invokedBuildIndex : Bool
  deriving Repr, DecidableEq

/-- The `__main__` block (lines 70–82) together with `create_music_index`'s
printing and writing (lines 17, 63–66): when `os.path.isdir` fails the two
diagnostics are printed and nothing else happens; otherwise the scan runs
and the index is written to `output_file`. -/
def runMain (root : Option (List ArtistDir)) : RunResult :=
  match root with
  | none =>
    { printed := [missingMsg1, missingMsg2]
      wrote := none
      invokedBuildIndex := false }
  | some listing =>
    let album_list := buildIndex listing
    { printed := [startMsg, successMsg album_list.length]
      wrote := some (output_file, album_list)
      invokedBuildIndex := true }

/-! ### Fallible directory listings (error propagation, lines 20–65)

The script wraps no `try`/`except` around the walk (lines 20–57); only the
final `open`/`json.dump` is guarded (lines 63–68).  To state what a listing
failure does, each `os.listdir` result becomes an `Except`: `.error e`
models the call raising `OSError e`, and the fold short-circuits exactly as
an uncaught Python exception unwinds the loops. -/

/-- Album-level entry whose `os.listdir(album_path)` outcome (line 40) may
be an error. -/
structure AlbumDirE where
  name : String
  isDir : Bool
  files : Except String (List FileEntry)
  deriving Repr

/-- Artist-level entry whose `os.listdir(artist_path)` outcome (line 24) may
be an error. -/
structure ArtistDirE where
  name : String
  isDir : Bool
  albums : Except String (List AlbumDirE)
  deriving Repr

/-- Left fold that stops at the first error, as an uncaught exception stops
a Python `for` loop. -/
def foldE {σ α : Type} (f : σ → α → Except String σ) : σ → List α → Except String σ
  | s, [] => .ok s
  | s, a :: rest =>
    match f s a with
    | .error e => .error e
    | .ok s2 => foldE f s2 rest

/-- `processAlbum` over a fallible file listing: the album record is created
(lines 32–38) before `os.listdir(album_path)` runs (line 40), and a listing
error aborts the loop body. -/
def processAlbumE (artistName : String) (st : Albums × Nat) (alb : AlbumDirE) :
    Except String (Albums × Nat) :=
  if alb.isDir && !strStartsWith alb.name "." then
    let aN := nfc artistName
    let bN := nfc alb.name
    let key := aN ++ "-" ++ bN
    let m :=
      match findAlbum key st.1 with
      | some _ => st.1
      | none => st.1 ++ [(key, { name := bN, artist := aN, songs := [] })]
    match alb.files with
    | .error e => .error e
    | .ok fs => .ok (processSongs aN bN key fs (m, st.2))
  else .ok st

/-- `processArtist` over a fallible album listing. -/
def processArtistE (st : Albums × Nat) (art : ArtistDirE) :
    Except String (Albums × Nat) :=
  if art.isDir && !strStartsWith art.name "." then
    match art.albums with
    | .error e => .error e
    | .ok albs => foldE (processAlbumE art.name) st albs
  else .ok st

/-- The traversal (lines 15–60) over fallible listings: the root listing
`os.listdir(root_folder)` (line 20) may itself fail, and any error anywhere
in the walk propagates to the whole run's result. -/
def buildIndexE (rootListing : Except String (List ArtistDirE)) :
    Except String (List AlbumRecord) :=
  match rootListing with
  | .error e => .error e
  | .ok arts =>
    match foldE processArtistE ([], 0) arts with
    | .error e => .error e
    | .ok st => .ok (st.1.map Prod.snd)

/-- Observable effects of one invocation when listings may fail: `raised`
carries the uncaught exception that aborted the run, if any. -/
structure RunResultE where
  printed : List String
  wrote : Option (String × List AlbumRecord)
  raised : Option String
  deriving Repr, DecidableEq

/-- The entry point over fallible listings: the start line (line 17) is
printed before any listing; an error during the walk unwinds past the write
(lines 63–65), so no file — not even a partial one — is produced. -/
def runMainE (root : Option (Except String (List ArtistDirE))) : RunResultE :=
  match root with
  | none =>
    { printed := [missingMsg1, missingMsg2], wrote := none, raised := none }
  | some listing =>
    match buildIndexE listing with
    | .error e =>
      { printed := [startMsg], wrote := none, raised := some e }
    | .ok album_list =>
      { printed := [startMsg, successMsg album_list.length]
        wrote := some (output_file, album_list)
        raised := none }

/-- Embed an error-free album entry into the fallible model. -/
def liftAlbumDir (alb : AlbumDir) : AlbumDirE :=
  { name := alb.name, isDir := alb.isDir, files := .ok alb.files }

/-- Embed an error-free artist entry into the fallible model. -/
def liftArtistDir (art : ArtistDir) : ArtistDirE :=
  { name := art.name, isDir := art.isDir, albums := .ok (art.albums.map liftAlbumDir) }

/-- Every song stored anywhere in the album dict satisfies `P`. -/
def SongProp (P : SongRecord → Prop) (m : Albums) : Prop :=
  ∀ p ∈ m, ∀ s ∈ p.2.songs, P s

/-- Every song stored in the album dict carries the album key of the record
holding it (its `artist` and `album` fields, joined by `"-"`, give the key). -/
def KeyInv (m : Albums) : Prop :=
  ∀ p ∈ m, ∀ s ∈ p.2.songs, s.artist ++ "-" ++ s.album = p.1

/-- All song ids stored in the album dict, in record order. -/
def albumIds : Albums → List Nat
  | [] => []
  | (_, r) :: rest => r.songs.map (fun s => s.id) ++ albumIds rest

/-- All song ids of an emitted index, in record order. -/
def indexIds : List AlbumRecord → List Nat
  | [] => []
  | rec :: rest => rec.songs.map (fun s => s.id) ++ indexIds rest

/-- Rewrite the `os.path.isdir` classification of every album-directory
entry by an arbitrary rule `g`, leaving names and structure unchanged; used
to state that the script never consults that classification at this level. -/
def setFileFlags (g : FileEntry → Bool) (root : List ArtistDir) : List ArtistDir :=
  root.map fun art =>
    { art with albums := art.albums.map fun alb =>
        { alb with files := alb.files.map fun f => { f with isDir := g f } } }

end MusicIndex

namespace MusicIndex

/-! ## Basic lemmas about the album dictionary -/

theorem appendSongs_nil (key : String) (m : Albums) : appendSongs key [] m = m := by
  induction m with
  | nil => rfl
  | cons p rest ih =>
    cases p with
    | mk k r =>
      by_cases h : k = key
      · simp [appendSongs, h]
      · simp [appendSongs, h, ih]

theorem appendSongs_append (key : String) (ss1 ss2 : List SongRecord) (m : Albums) :
    appendSongs key ss2 (appendSongs key ss1 m) = appendSongs key (ss1 ++ ss2) m := by
  induction m with
  | nil => rfl
  | cons p rest ih =>
    cases p with
    | mk k r =>
      by_cases h : k = key
      · simp [appendSongs, h]
      · simp [appendSongs, h, ih]

theorem appendSongs_keys (key : String) (ss : List SongRecord) (m : Albums) :
    (appendSongs key ss m).map Prod.fst = m.map Prod.fst := by
  induction m with
  | nil => rfl
  | cons p rest ih =>
    cases p with
    | mk k r =>
      by_cases h : k = key
      · simp [appendSongs, h]
      · simp [appendSongs, h, ih]

theorem appendSongs_singleton_self (key : String) (ss : List SongRecord) (r : AlbumRecord) :
    appendSongs key ss [(key, r)] = [(key, { r with songs := r.songs ++ ss })] := by
  simp [appendSongs]

theorem findAlbum_appendSongs (key k2 : String) (ss : List SongRecord) (m : Albums) :
    (findAlbum key (appendSongs k2 ss m)).isSome = (findAlbum key m).isSome := by
  induction m with
  | nil => rfl
  | cons p rest ih =>
    cases p with
    | mk k r =>
      by_cases h2 : k = k2
      · subst h2
        by_cases h : k = key
        · subst h
          simp [appendSongs, findAlbum]
        · simp [appendSongs, findAlbum, h]
      · by_cases h : k = key
        · subst h
          simp [appendSongs, findAlbum, h2]
        · simp [appendSongs, findAlbum, h2, h, ih]

theorem countAllowed_cons (f : FileEntry) (fs : List FileEntry) :
    countAllowed (f :: fs) =
      (if allowedExt f.name then 1 else 0) + countAllowed fs := by
  by_cases h : allowedExt f.name = true <;>
    simp [countAllowed, List.filter_cons, h, Nat.add_comm]

/-! ## Normal form of the inner song loop -/

theorem processSongs_eq (aN bN key : String) (files : List FileEntry)
    (m : Albums) (n : Nat) :
    processSongs aN bN key files (m, n) =
      (appendSongs key (mkSongs aN bN files n) m, n + countAllowed files) := by
  induction files generalizing m n with
  | nil => simp [processSongs, mkSongs, countAllowed, appendSongs_nil]
  | cons f fs ih =>
    by_cases h : allowedExt f.name = true
    · have step : processSongs aN bN key (f :: fs) (m, n)
          = processSongs aN bN key fs (appendSongs key [mkSong aN bN f.name n] m, n + 1) := by
        simp only [processSongs, List.foldl_cons, h, if_true]
      rw [step, ih, appendSongs_append, countAllowed_cons]
      simp only [mkSongs, h, if_true, List.singleton_append, Prod.mk.injEq, true_and]
      omega
    · have step : processSongs aN bN key (f :: fs) (m, n)
          = processSongs aN bN key fs (m, n) := by
        simp only [processSongs, List.foldl_cons, h, if_false, Bool.false_eq_true]
      rw [step, ih, countAllowed_cons]
      simp [mkSongs, h]

theorem mkSongs_append (aN bN : String) (xs ys : List FileEntry) (n : Nat) :
    mkSongs aN bN (xs ++ ys) n =
      mkSongs aN bN xs n ++ mkSongs aN bN ys (n + countAllowed xs) := by
  induction xs generalizing n with
  | nil => simp [mkSongs, countAllowed]
  | cons f fs ih =>
    by_cases h : allowedExt f.name = true
    · have harith : n + 1 + countAllowed fs = n + countAllowed (f :: fs) := by
        rw [countAllowed_cons]
        simp [h]
        omega
      simp only [List.cons_append, mkSongs, h, if_true, List.append_eq, ih, harith]
    · have harith : n + countAllowed fs = n + countAllowed (f :: fs) := by
        rw [countAllowed_cons]
        simp [h]
      simp only [List.cons_append, mkSongs, h, if_false, List.append_eq, ih, harith, Bool.false_eq_true]

/-! ## One artist / one album normal form -/

theorem processAlbum_hidden (artistName : String) (alb : AlbumDir)
    (st : Albums × Nat) (h : strStartsWith alb.name "." = true) :
    processAlbum artistName alb st = st := by
  simp [processAlbum, h]

theorem processArtist_hidden (art : ArtistDir) (st : Albums × Nat)
    (h : strStartsWith art.name "." = true) :
    processArtist art st = st := by
  simp [processArtist, h]

theorem processAlbum_notDir (artistName : String) (alb : AlbumDir)
    (st : Albums × Nat) (h : alb.isDir = false) :
    processAlbum artistName alb st = st := by
  simp [processAlbum, h]

theorem processArtist_notDir (art : ArtistDir) (st : Albums × Nat)
    (h : art.isDir = false) :
    processArtist art st = st := by
  simp [processArtist, h]

theorem processAlbum_visible (artistName : String) (alb : AlbumDir)
    (st : Albums × Nat) (hd : alb.isDir = true) (hh : strStartsWith alb.name "." = false) :
    processAlbum artistName alb st =
      (let aN := nfc artistName
       let bN := nfc alb.name
       let key := aN ++ "-" ++ bN
       let m :=
         match findAlbum key st.1 with
         | some _ => st.1
         | none => st.1 ++ [(key, { name := bN, artist := aN, songs := [] })]
       processSongs aN bN key alb.files (m, st.2)) := by
  simp [processAlbum, hd, hh]

theorem scanAlbums_single (a b : String) (files : List FileEntry)
    (ha : strStartsWith a "." = false) (hb : strStartsWith b "." = false) :
    scanAlbums [⟨a, true, [⟨b, true, files⟩]⟩] =
      ([(nfc a ++ "-" ++ nfc b,
         { name := nfc b, artist := nfc a, songs := mkSongs (nfc a) (nfc b) files 0 })],
       countAllowed files) := by
  have e1 : scanAlbums [⟨a, true, [⟨b, true, files⟩]⟩]
      = processAlbum a ⟨b, true, files⟩ ([], 0) := by
    simp only [scanAlbums, List.foldl_cons, List.foldl_nil, processArtist, ha,
      Bool.not_false, Bool.true_and, if_true]
  rw [e1, processAlbum_visible a ⟨b, true, files⟩ ([], 0) rfl hb]
  simp only [findAlbum, List.nil_append]
  rw [processSongs_eq]
  rw [appendSongs_singleton_self]
  simp

theorem buildIndex_single (a b : String) (files : List FileEntry)
    (ha : strStartsWith a "." = false) (hb : strStartsWith b "." = false) :
    buildIndex [⟨a, true, [⟨b, true, files⟩]⟩] =
      [{ name := nfc b, artist := nfc a, songs := mkSongs (nfc a) (nfc b) files 0 }] := by
  rw [buildIndex, scanAlbums_single a b files ha hb]
  rfl



/-! ## Generic fold invariance and per-song invariants -/

theorem foldl_inv {σ α : Type} {Q : σ → Prop} {f : σ → α → σ}
    (hf : ∀ s a, Q s → Q (f s a)) :
    ∀ (l : List α) (s : σ), Q s → Q (l.foldl f s) := by
  intro l
  induction l with
  | nil => exact fun s hs => hs
  | cons a rest ih => exact fun s hs => ih _ (hf s a hs)

theorem foldl_fun_congr {σ α : Type} {f g : σ → α → σ}
    (h : ∀ s a, f s a = g s a) :
    ∀ (l : List α) (s : σ), l.foldl f s = l.foldl g s := by
  intro l
  induction l with
  | nil => exact fun s => rfl
  | cons a rest ih =>
    intro s
    rw [List.foldl_cons, List.foldl_cons, h, ih]

theorem songProp_nil (P : SongRecord → Prop) : SongProp P [] := by
  simp [SongProp]

theorem songProp_append_record (P : SongRecord → Prop) (m : Albums)
    (key : String) (r : AlbumRecord) (hr : r.songs = [])
    (h : SongProp P m) : SongProp P (m ++ [(key, r)]) := by
  intro p hp s hs
  rcases List.mem_append.mp hp with h1 | h2
  · exact h p h1 s hs
  · rcases List.mem_singleton.mp h2 with rfl
    rw [hr] at hs
    simp at hs

theorem songProp_appendSongs (P : SongRecord → Prop) (key : String)
    (ss : List SongRecord) (m : Albums)
    (h : SongProp P m) (hss : ∀ s ∈ ss, P s) :
    SongProp P (appendSongs key ss m) := by
  induction m with
  | nil => simpa [appendSongs] using songProp_nil P
  | cons p rest ih =>
    cases p with
    | mk k r =>
      have hhead : ∀ s ∈ r.songs, P s := fun s hs => h (k, r) (by simp) s hs
      have hrest : SongProp P rest := fun q hq s hs => h q (by simp [hq]) s hs
      by_cases hk : k = key
      · intro q hq s hs
        rw [appendSongs, if_pos hk] at hq
        rcases List.mem_cons.mp hq with rfl | h2
        · rcases List.mem_append.mp hs with h3 | h4
          · exact hhead s h3
          · exact hss s h4
        · exact hrest q h2 s hs
      · intro q hq s hs
        rw [appendSongs, if_neg hk] at hq
        rcases List.mem_cons.mp hq with rfl | h2
        · exact hhead s hs
        · exact ih hrest q h2 s hs

theorem mem_mkSongs (aN bN : String) (files : List FileEntry) (n : Nat)
    (s : SongRecord) (hs : s ∈ mkSongs aN bN files n) :
    ∃ fname k, allowedExt fname = true ∧ s = mkSong aN bN fname k := by
  induction files generalizing n with
  | nil => simp [mkSongs] at hs
  | cons f fs ih =>
    by_cases h : allowedExt f.name = true
    · rw [mkSongs, if_pos h] at hs
      rcases List.mem_cons.mp hs with rfl | h2
      · exact ⟨f.name, n, h, rfl⟩
      · exact ih _ h2
    · rw [mkSongs, if_neg h] at hs
      exact ih _ hs

theorem songProp_processAlbum (P : SongRecord → Prop)
    (hP : ∀ aN bN fname k, allowedExt fname = true → P (mkSong aN bN fname k))
    (artistName : String) (alb : AlbumDir) (st : Albums × Nat)
    (h : SongProp P st.1) : SongProp P (processAlbum artistName alb st).1 := by
  rcases st with ⟨m, n⟩
  cases hd : alb.isDir with
  | false => rw [processAlbum_notDir _ _ _ hd]; exact h
  | true =>
    cases hh : strStartsWith alb.name "." with
    | true => rw [processAlbum_hidden _ _ _ hh]; exact h
    | false =>
      rw [processAlbum_visible _ _ _ hd hh]
      simp only []
      rw [processSongs_eq]
      apply songProp_appendSongs
      · cases hfind : findAlbum (nfc artistName ++ "-" ++ nfc alb.name) m with
        | some r => simpa [hfind] using h
        | none =>
          simp only [hfind]
          exact songProp_append_record P m _ _ rfl h
      · intro s hs
        rcases mem_mkSongs _ _ _ _ s hs with ⟨fname, k, hf, rfl⟩
        exact hP _ _ fname k hf

theorem songProp_processArtist (P : SongRecord → Prop)
    (hP : ∀ aN bN fname k, allowedExt fname = true → P (mkSong aN bN fname k))
    (art : ArtistDir) (st : Albums × Nat)
    (h : SongProp P st.1) : SongProp P (processArtist art st).1 := by
  unfold processArtist
  cases hc : (art.isDir && !strStartsWith art.name ".") with
  | false => simpa using h
  | true =>
    simp only [if_true]
    exact foldl_inv (fun st alb hst => songProp_processAlbum P hP art.name alb st hst)
      art.albums st h

theorem songProp_buildIndex (P : SongRecord → Prop)
    (hP : ∀ aN bN fname k, allowedExt fname = true → P (mkSong aN bN fname k))
    (root : List ArtistDir) :
    ∀ rec ∈ buildIndex root, ∀ s ∈ rec.songs, P s := by
  intro rec hrec s hsrec
  have hsp : SongProp P (scanAlbums root).1 :=
    foldl_inv (Q := fun st => SongProp P st.1)
      (fun st art hst => songProp_processArtist P hP art st hst)
      root ([], 0) (songProp_nil P)
  simp only [buildIndex] at hrec
  rcases List.mem_map.mp hrec with ⟨p, hp, rfl⟩
  exact hsp p hp s hsrec


/-! ## Song lists as filtered file listings -/

theorem mkSongs_relativePaths (aN bN : String) (files : List FileEntry) (n : Nat) :
    (mkSongs aN bN files n).map (fun s => s.relativePath) =
      (files.filter (fun f => allowedExt f.name)).map
        (fun f => aN ++ "/" ++ bN ++ "/" ++ nfc f.name) := by
  induction files generalizing n with
  | nil => simp [mkSongs]
  | cons f fs ih =>
    by_cases h : allowedExt f.name = true <;>
      simp [mkSongs, List.filter_cons, h, mkSong, ih]

/-! ## The file-level `isDir` classification is never consulted -/

theorem mkSongs_names_only (aN bN : String) (g : FileEntry → Bool)
    (files : List FileEntry) (n : Nat) :
    mkSongs aN bN (files.map fun f => { f with isDir := g f }) n =
      mkSongs aN bN files n := by
  induction files generalizing n with
  | nil => rfl
  | cons f fs ih =>
    by_cases h : allowedExt f.name = true <;> simp [mkSongs, h, ih]

theorem countAllowed_names_only (g : FileEntry → Bool) (files : List FileEntry) :
    countAllowed (files.map fun f => { f with isDir := g f }) = countAllowed files := by
  induction files with
  | nil => rfl
  | cons f fs ih =>
    by_cases h : allowedExt f.name = true <;>
      simp [countAllowed_cons, h, ih]

theorem processAlbum_setFlags (g : FileEntry → Bool) (artistName : String)
    (alb : AlbumDir) (st : Albums × Nat) :
    processAlbum artistName
      { alb with files := alb.files.map fun f => { f with isDir := g f } } st =
      processAlbum artistName alb st := by
  rcases st with ⟨m, n⟩
  unfold processAlbum
  cases hc : (alb.isDir && !strStartsWith alb.name ".") with
  | false => simp [hc]
  | true =>
    simp only [hc, if_true]
    rw [processSongs_eq, processSongs_eq, mkSongs_names_only, countAllowed_names_only]

theorem processArtist_setFlags (g : FileEntry → Bool) (art : ArtistDir)
    (st : Albums × Nat) :
    processArtist
      { art with albums := art.albums.map fun alb =>
          { alb with files := alb.files.map fun f => { f with isDir := g f } } } st =
      processArtist art st := by
  unfold processArtist
  cases hc : (art.isDir && !strStartsWith art.name ".") with
  | false => simp [hc]
  | true =>
    simp only [hc, if_true]
    rw [List.foldl_map]
    exact foldl_fun_congr (fun st alb => processAlbum_setFlags g art.name alb st)
      art.albums st

theorem buildIndex_setFlags (g : FileEntry → Bool) (root : List ArtistDir) :
    buildIndex (setFileFlags g root) = buildIndex root := by
  unfold buildIndex scanAlbums setFileFlags
  rw [List.foldl_map]
  rw [foldl_fun_congr (fun st art => processArtist_setFlags g art st) root ([], 0)]

/-! ## Hidden directories contribute nothing -/

theorem scanAlbums_skip_artist (pre post : List ArtistDir) (art : ArtistDir)
    (h : strStartsWith art.name "." = true) :
    scanAlbums (pre ++ art :: post) = scanAlbums (pre ++ post) := by
  unfold scanAlbums
  rw [List.foldl_append, List.foldl_append, List.foldl_cons]
  rw [processArtist_hidden _ _ h]

theorem processArtist_skip_album (aname : String) (d : Bool)
    (pre2 post2 : List AlbumDir) (alb : AlbumDir) (st : Albums × Nat)
    (h : strStartsWith alb.name "." = true) :
    processArtist ⟨aname, d, pre2 ++ alb :: post2⟩ st =
      processArtist ⟨aname, d, pre2 ++ post2⟩ st := by
  unfold processArtist
  cases hc : (d && !strStartsWith aname ".") with
  | false => simp [hc]
  | true =>
    simp only [hc, if_true]
    rw [List.foldl_append, List.foldl_append, List.foldl_cons]
    rw [processAlbum_hidden _ _ _ h]

theorem scanAlbums_skip_album (pre post : List ArtistDir) (aname : String)
    (d : Bool) (pre2 post2 : List AlbumDir) (alb : AlbumDir)
    (h : strStartsWith alb.name "." = true) :
    scanAlbums (pre ++ ⟨aname, d, pre2 ++ alb :: post2⟩ :: post) =
      scanAlbums (pre ++ ⟨aname, d, pre2 ++ post2⟩ :: post) := by
  unfold scanAlbums
  rw [List.foldl_append, List.foldl_append, List.foldl_cons, List.foldl_cons]
  rw [processArtist_skip_album _ _ _ _ _ _ h]

/-! ## The fallible model agrees with the plain one on error-free trees -/

theorem foldE_ok {σ α β : Type} (fE : σ → β → Except String σ) (f : σ → α → σ)
    (g : α → β) (h : ∀ s a, fE s (g a) = .ok (f s a)) :
    ∀ (l : List α) (s : σ), foldE fE s (l.map g) = .ok (l.foldl f s) := by
  intro l
  induction l with
  | nil => intro s; rfl
  | cons a rest ih =>
    intro s
    simp only [List.map_cons, foldE, h, List.foldl_cons]
    exact ih (f s a)

theorem processAlbumE_lift (artistName : String) (alb : AlbumDir) (st : Albums × Nat) :
    processAlbumE artistName st (liftAlbumDir alb) = .ok (processAlbum artistName alb st) := by
  unfold processAlbumE processAlbum liftAlbumDir
  cases hc : (alb.isDir && !strStartsWith alb.name ".") with
  | false => simp [hc]
  | true => simp [hc]

theorem processArtistE_lift (art : ArtistDir) (st : Albums × Nat) :
    processArtistE st (liftArtistDir art) = .ok (processArtist art st) := by
  unfold processArtistE processArtist liftArtistDir
  cases hc : (art.isDir && !strStartsWith art.name ".") with
  | false => simp [hc]
  | true =>
    simp only [hc, if_true]
    exact foldE_ok _ _ _ (fun s alb => processAlbumE_lift art.name alb s) art.albums st

theorem buildIndexE_ok (arts : List ArtistDirE) :
    buildIndexE (.ok arts) =
      (match foldE processArtistE ([], 0) arts with
       | .error e => .error e
       | .ok st => .ok (st.1.map Prod.snd)) := rfl

theorem buildIndexE_lift (root : List ArtistDir) :
    buildIndexE (.ok (root.map liftArtistDir)) = .ok (buildIndex root) := by
  rw [buildIndexE_ok, foldE_ok processArtistE (fun st art => processArtist art st)
    liftArtistDir (fun s art => processArtistE_lift art s) root ([], 0)]
  rfl

/-! ## Songs and their record keys -/

theorem keyInv_nil : KeyInv [] := by
  intro p hp
  simp at hp

theorem keyInv_append_record (m : Albums) (key : String) (r : AlbumRecord)
    (hr : r.songs = []) (h : KeyInv m) : KeyInv (m ++ [(key, r)]) := by
  intro p hp s hs
  rcases List.mem_append.mp hp with h1 | h2
  · exact h p h1 s hs
  · rcases List.mem_singleton.mp h2 with rfl
    rw [hr] at hs
    simp at hs

theorem keyInv_appendSongs (key : String) (ss : List SongRecord) (m : Albums)
    (h : KeyInv m) (hss : ∀ s ∈ ss, s.artist ++ "-" ++ s.album = key) :
    KeyInv (appendSongs key ss m) := by
  induction m with
  | nil =>
    intro p hp
    simp [appendSongs] at hp
  | cons p rest ih =>
    cases p with
    | mk k r =>
      have hhead : ∀ s ∈ r.songs, s.artist ++ "-" ++ s.album = k :=
        fun s hs => h (k, r) (by simp) s hs
      have hrest : KeyInv rest := fun q hq s hs => h q (by simp [hq]) s hs
      by_cases hk : k = key
      · intro q hq s hs
        rw [appendSongs, if_pos hk] at hq
        rcases List.mem_cons.mp hq with rfl | h2
        · rcases List.mem_append.mp hs with h3 | h4
          · exact hhead s h3
          · rw [hk]
            exact hss s h4
        · exact hrest q h2 s hs
      · intro q hq s hs
        rw [appendSongs, if_neg hk] at hq
        rcases List.mem_cons.mp hq with rfl | h2
        · exact hhead s hs
        · exact ih hrest q h2 s hs

theorem keyInv_processAlbum (artistName : String) (alb : AlbumDir)
    (st : Albums × Nat) (h : KeyInv st.1) :
    KeyInv (processAlbum artistName alb st).1 := by
  rcases st with ⟨m, n⟩
  cases hd : alb.isDir with
  | false => rw [processAlbum_notDir _ _ _ hd]; exact h
  | true =>
    cases hh : strStartsWith alb.name "." with
    | true => rw [processAlbum_hidden _ _ _ hh]; exact h
    | false =>
      rw [processAlbum_visible _ _ _ hd hh]
      simp only []
      rw [processSongs_eq]
      apply keyInv_appendSongs
      · cases hfind : findAlbum (nfc artistName ++ "-" ++ nfc alb.name) m with
        | some r => simpa [hfind] using h
        | none =>
          simp only [hfind]
          exact keyInv_append_record m _ _ rfl h
      · intro s hs
        rcases mem_mkSongs _ _ _ _ s hs with ⟨fname, k, hf, rfl⟩
        rfl

theorem keyInv_processArtist (art : ArtistDir) (st : Albums × Nat)
    (h : KeyInv st.1) : KeyInv (processArtist art st).1 := by
  unfold processArtist
  cases hc : (art.isDir && !strStartsWith art.name ".") with
  | false => simpa using h
  | true =>
    simp only [if_true]
    exact foldl_inv (fun st alb hst => keyInv_processAlbum art.name alb st hst)
      art.albums st h

/-! ## Freshness and distinctness of song ids -/

theorem albumIds_append (m1 m2 : Albums) :
    albumIds (m1 ++ m2) = albumIds m1 ++ albumIds m2 := by
  induction m1 with
  | nil => rfl
  | cons p rest ih =>
    cases p with
    | mk k r => simp [albumIds, ih]

theorem indexIds_map_snd (m : Albums) :
    indexIds (m.map Prod.snd) = albumIds m := by
  induction m with
  | nil => rfl
  | cons p rest ih =>
    cases p with
    | mk k r => simp [indexIds, albumIds, ih]

theorem mkSongs_ids_bounds (aN bN : String) (files : List FileEntry) (n : Nat) :
    ∀ s ∈ mkSongs aN bN files n, n ≤ s.id ∧ s.id < n + countAllowed files := by
  induction files generalizing n with
  | nil => simp [mkSongs]
  | cons f fs ih =>
    intro s hs
    by_cases h : allowedExt f.name = true
    · have hc : countAllowed (f :: fs) = 1 + countAllowed fs := by
        rw [countAllowed_cons]
        simp [h]
      rw [mkSongs, if_pos h] at hs
      rcases List.mem_cons.mp hs with rfl | h2
      · have hid : (mkSong aN bN f.name n).id = n := rfl
        rw [hid, hc]
        omega
      · have := ih (n + 1) s h2
        rw [hc]
        omega
    · have hc : countAllowed (f :: fs) = countAllowed fs := by
        rw [countAllowed_cons]
        simp [h]
      rw [mkSongs, if_neg h] at hs
      have := ih n s hs
      rw [hc]
      omega

theorem mkSongs_ids_nodup (aN bN : String) (files : List FileEntry) (n : Nat) :
    ((mkSongs aN bN files n).map (fun s => s.id)).Nodup := by
  induction files generalizing n with
  | nil => simp [mkSongs]
  | cons f fs ih =>
    by_cases h : allowedExt f.name = true
    · rw [mkSongs, if_pos h]
      simp only [List.map_cons]
      rw [List.nodup_cons]
      refine ⟨?_, ih (n + 1)⟩
      intro hmem
      rcases List.mem_map.mp hmem with ⟨s, hs, hid⟩
      have hge := (mkSongs_ids_bounds aN bN fs (n + 1) s hs).1
      have hn : (mkSong aN bN f.name n).id = n := rfl
      rw [hn] at hid
      omega
    · rw [mkSongs, if_neg h]
      exact ih n

theorem albumIds_appendSongs_cases (key : String) (ss : List SongRecord) (m : Albums) :
    albumIds (appendSongs key ss m) = albumIds m ∨
    (albumIds (appendSongs key ss m)).Perm
      (albumIds m ++ ss.map (fun s => s.id)) := by
  induction m with
  | nil => left; rfl
  | cons p rest ih =>
    cases p with
    | mk k r =>
      by_cases hk : k = key
      · right
        rw [appendSongs, if_pos hk]
        simp only [albumIds, List.map_append]
        rw [List.append_assoc, List.append_assoc]
        exact List.Perm.append_left _ List.perm_append_comm
      · rw [appendSongs, if_neg hk]
        simp only [albumIds]
        rcases ih with h | h
        · left
          rw [h]
        · right
          have h2 := List.Perm.append_left (r.songs.map fun s => s.id) h
          rw [← List.append_assoc] at h2
          exact h2

theorem idInv_appendSongs_mkSongs (aN bN key : String) (files : List FileEntry)
    (m : Albums) (n : Nat)
    (hnd : (albumIds m).Nodup) (hlt : ∀ i ∈ albumIds m, i < n) :
    (albumIds (appendSongs key (mkSongs aN bN files n) m)).Nodup ∧
      ∀ i ∈ albumIds (appendSongs key (mkSongs aN bN files n) m),
        i < n + countAllowed files := by
  rcases albumIds_appendSongs_cases key (mkSongs aN bN files n) m with h | h
  · rw [h]
    exact ⟨hnd, fun i hi => lt_of_lt_of_le (hlt i hi) (Nat.le_add_right n _)⟩
  · constructor
    · rw [List.Perm.nodup_iff h]
      apply List.Nodup.append hnd (mkSongs_ids_nodup aN bN files n)
      intro i h1 h2
      rcases List.mem_map.mp h2 with ⟨s, hs, rfl⟩
      have := (mkSongs_ids_bounds aN bN files n s hs).1
      have := hlt _ h1
      omega
    · intro i hi
      rcases List.mem_append.mp ((List.Perm.mem_iff h).mp hi) with h1 | h2
      · exact lt_of_lt_of_le (hlt i h1) (Nat.le_add_right n _)
      · rcases List.mem_map.mp h2 with ⟨s, hs, rfl⟩
        exact (mkSongs_ids_bounds aN bN files n s hs).2

theorem idInv_processAlbum (artistName : String) (alb : AlbumDir)
    (st : Albums × Nat)
    (hnd : (albumIds st.1).Nodup) (hlt : ∀ i ∈ albumIds st.1, i < st.2) :
    (albumIds (processAlbum artistName alb st).1).Nodup ∧
      ∀ i ∈ albumIds (processAlbum artistName alb st).1,
        i < (processAlbum artistName alb st).2 := by
  rcases st with ⟨m, n⟩
  cases hd : alb.isDir with
  | false =>
    rw [processAlbum_notDir _ _ _ hd]
    exact ⟨hnd, hlt⟩
  | true =>
    cases hh : strStartsWith alb.name "." with
    | true =>
      rw [processAlbum_hidden _ _ _ hh]
      exact ⟨hnd, hlt⟩
    | false =>
      rw [processAlbum_visible _ _ _ hd hh]
      simp only []
      rw [processSongs_eq]
      cases hfind : findAlbum (nfc artistName ++ "-" ++ nfc alb.name) m with
      | some r =>
        simp only [hfind]
        exact idInv_appendSongs_mkSongs _ _ _ alb.files m n hnd hlt
      | none =>
        simp only [hfind]
        have hids : albumIds
            (m ++ [(nfc artistName ++ "-" ++ nfc alb.name,
              { name := nfc alb.name, artist := nfc artistName, songs := [] })]) =
            albumIds m := by
          rw [albumIds_append]
          simp [albumIds]
        refine (idInv_appendSongs_mkSongs _ _ _ alb.files _ n ?_ ?_)
        · rw [hids]; exact hnd
        · rw [hids]; exact hlt

theorem idInv_processArtist (art : ArtistDir) (st : Albums × Nat)
    (hnd : (albumIds st.1).Nodup) (hlt : ∀ i ∈ albumIds st.1, i < st.2) :
    (albumIds (processArtist art st).1).Nodup ∧
      ∀ i ∈ albumIds (processArtist art st).1, i < (processArtist art st).2 := by
  unfold processArtist
  cases hc : (art.isDir && !strStartsWith art.name ".") with
  | false => simpa using ⟨hnd, hlt⟩
  | true =>
    simp only [if_true]
    exact foldl_inv
      (Q := fun st => (albumIds st.1).Nodup ∧ ∀ i ∈ albumIds st.1, i < st.2)
      (fun st alb hst => idInv_processAlbum art.name alb st hst.1 hst.2)
      art.albums st ⟨hnd, hlt⟩

/-! ## Claim theorems -/

/-- C3: for every entry of an album directory, a SongRecord is created if
and only if its name, lowercased, ends in one of the fixed extensions
`.mp3`, `.m4a`, `.flac`, `.wav` (the produced song lists are exactly the
entries passing that test, mapped to their songs); in particular
`track.MP3` is included and `cover.jpg` is excluded. -/
theorem C3_song_iff_audio_ext (a b : String) (files : List FileEntry)
    (ha : strStartsWith a "." = false) (hb : strStartsWith b "." = false) :
    ((buildIndex [⟨a, true, [⟨b, true, files⟩]⟩]).map
        (fun rec => rec.songs.map fun s => s.relativePath) =
      [(files.filter fun f =>
          strEndsWith (strLower f.name) ".mp3" || strEndsWith (strLower f.name) ".m4a" ||
          strEndsWith (strLower f.name) ".flac" ||
          strEndsWith (strLower f.name) ".wav").map
        fun f => nfc a ++ "/" ++ nfc b ++ "/" ++ nfc f.name]) ∧
    allowedExt "track.MP3" = true ∧ allowedExt "cover.jpg" = false := by
  refine ⟨?_, by decide, by decide⟩
  rw [buildIndex_single a b files ha hb]
  simp only [List.map_cons, List.map_nil, mkSongs_relativePaths]
  rfl

/-- C3 witness: the theorem instantiated at a two-file album holding
`track.MP3` and `cover.jpg`, hypotheses discharged by evaluation. -/
theorem C3_song_iff_audio_ext_witness :
    strStartsWith "Artist" "." = false ∧ strStartsWith "Album" "." = false ∧
    (((buildIndex [⟨"Artist", true, [⟨"Album", true,
          [⟨"track.MP3", false⟩, ⟨"cover.jpg", false⟩]⟩]⟩]).map
        (fun rec => rec.songs.map fun s => s.relativePath) =
      [([(⟨"track.MP3", false⟩ : FileEntry), ⟨"cover.jpg", false⟩].filter fun f =>
          strEndsWith (strLower f.name) ".mp3" || strEndsWith (strLower f.name) ".m4a" ||
          strEndsWith (strLower f.name) ".flac" ||
          strEndsWith (strLower f.name) ".wav").map
        fun f => nfc "Artist" ++ "/" ++ nfc "Album" ++ "/" ++ nfc f.name]) ∧
    allowedExt "track.MP3" = true ∧ allowedExt "cover.jpg" = false) :=
  ⟨by decide, by decide,
    C3_song_iff_audio_ext "Artist" "Album"
      [⟨"track.MP3", false⟩, ⟨"cover.jpg", false⟩] (by decide) (by decide)⟩

/-- C5: every included song's `relativePath` is exactly its normalized
artist name, normalized album name and normalized file name joined with
forward slashes (and its `title` is the normalized file name without its
extension); concretely, artist `"Sigur Rós"`, album `"( )"`, file
`"08.flac"` yields relativePath `"Sigur Rós/( )/08.flac"`. -/
theorem C5_relativePath_construction (root : List ArtistDir) :
    (∀ rec ∈ buildIndex root, ∀ s ∈ rec.songs,
      ∃ fname, allowedExt fname = true ∧
        s.relativePath = s.artist ++ "/" ++ s.album ++ "/" ++ nfc fname ∧
        s.title = splitextRoot (nfc fname)) ∧
    buildIndex [⟨"Sigur Rós", true, [⟨"( )", true, [⟨"08.flac", false⟩]⟩]⟩] =
      [{ name := "( )", artist := "Sigur Rós",
         songs := [{ id := 0, title := "08", artist := "Sigur Rós", album := "( )",
                     relativePath := "Sigur Rós/( )/08.flac" }] }] := by
  constructor
  · exact songProp_buildIndex
      (fun s => ∃ fname, allowedExt fname = true ∧
        s.relativePath = s.artist ++ "/" ++ s.album ++ "/" ++ nfc fname ∧
        s.title = splitextRoot (nfc fname))
      (fun aN bN fname k hf => ⟨fname, hf, rfl, rfl⟩) root
  · decide

/-- C5 witness: the per-song path shape holds of the one song produced by
the Sigur Rós example, with every membership hypothesis evaluated. -/
theorem C5_relativePath_construction_witness :
    ∃ fname, allowedExt fname = true ∧
      ({ id := 0, title := "08", artist := "Sigur Rós", album := "( )",
         relativePath := "Sigur Rós/( )/08.flac" } : SongRecord).relativePath =
        "Sigur Rós" ++ "/" ++ "( )" ++ "/" ++ nfc fname ∧
      "08" = splitextRoot (nfc fname) :=
  (C5_relativePath_construction
      [⟨"Sigur Rós", true, [⟨"( )", true, [⟨"08.flac", false⟩]⟩]⟩]).1
    { name := "( )", artist := "Sigur Rós",
      songs := [{ id := 0, title := "08", artist := "Sigur Rós", album := "( )",
                  relativePath := "Sigur Rós/( )/08.flac" }] }
    (by decide)
    { id := 0, title := "08", artist := "Sigur Rós", album := "( )",
      relativePath := "Sigur Rós/( )/08.flac" }
    (by decide)

/-- C9: song inclusion never checks whether an album-directory entry is a
regular file: rewriting every entry's `isDir` classification by an
arbitrary rule changes nothing, and a subdirectory named `demo.mp3` inside
an album directory is emitted as a song. -/
theorem C9_isDir_never_checked (g : FileEntry → Bool) (root : List ArtistDir) :
    buildIndex (setFileFlags g root) = buildIndex root ∧
    buildIndex [⟨"Artist", true, [⟨"Album", true, [⟨"demo.mp3", true⟩]⟩]⟩] =
      [{ name := "Album", artist := "Artist",
         songs := [{ id := 0, title := "demo", artist := "Artist", album := "Album",
                     relativePath := "Artist/Album/demo.mp3" }] }] :=
  ⟨buildIndex_setFlags g root, by decide⟩

/-- C10: the leading-dot hidden-name exclusion applies only at the artist
and album directory levels: a dot-prefixed album entry whose name has an
allowed extension is included as a SongRecord. -/
theorem C10_dotfile_included (a b fname : String)
    (ha : strStartsWith a "." = false) (hb : strStartsWith b "." = false)
    (_hdot : strStartsWith fname "." = true) (hext : allowedExt fname = true) :
    buildIndex [⟨a, true, [⟨b, true, [⟨fname, false⟩]⟩]⟩] =
      [{ name := nfc b, artist := nfc a,
         songs := [mkSong (nfc a) (nfc b) fname 0] }] := by
  rw [buildIndex_single a b _ ha hb]
  simp [mkSongs, hext]

/-- C10 witness: a dot-prefixed entry `._track.mp3` is included as a song. -/
theorem C10_dotfile_included_witness :
    buildIndex [⟨"Artist", true, [⟨"Album", true, [⟨"._track.mp3", false⟩]⟩]⟩] =
      [{ name := nfc "Album", artist := nfc "Artist",
         songs := [mkSong (nfc "Artist") (nfc "Album") "._track.mp3" 0] }] :=
  C10_dotfile_included "Artist" "Album" "._track.mp3"
    (by decide) (by decide) (by decide) (by decide)

/-- C4: a hidden (dot-prefixed) directory at the artist or at the album
level contributes zero songs and zero album records, whatever its contents:
deleting the whole subtree from the listing leaves the index unchanged. -/
theorem C4_hidden_dirs_skipped :
    (∀ (pre post : List ArtistDir) (art : ArtistDir),
      strStartsWith art.name "." = true →
      buildIndex (pre ++ art :: post) = buildIndex (pre ++ post)) ∧
    (∀ (pre post : List ArtistDir) (aname : String) (d : Bool)
        (pre2 post2 : List AlbumDir) (alb : AlbumDir),
      strStartsWith alb.name "." = true →
      buildIndex (pre ++ ⟨aname, d, pre2 ++ alb :: post2⟩ :: post) =
        buildIndex (pre ++ ⟨aname, d, pre2 ++ post2⟩ :: post)) := by
  constructor
  · intro pre post art h
    unfold buildIndex
    rw [scanAlbums_skip_artist pre post art h]
  · intro pre post aname d pre2 post2 alb h
    unfold buildIndex
    rw [scanAlbums_skip_album pre post aname d pre2 post2 alb h]

/-- C4 witness: a hidden artist directory and a hidden album directory,
each holding an audio file, contribute nothing. -/
theorem C4_hidden_dirs_skipped_witness :
    buildIndex [⟨".hidden", true, [⟨"X", true, [⟨"a.mp3", false⟩]⟩]⟩] =
      buildIndex [] ∧
    buildIndex [⟨"Artist", true, [⟨".hiddenAlbum", true, [⟨"b.mp3", false⟩]⟩]⟩] =
      buildIndex [⟨"Artist", true, ([] : List AlbumDir)⟩] :=
  ⟨C4_hidden_dirs_skipped.1 [] [] ⟨".hidden", true, [⟨"X", true, [⟨"a.mp3", false⟩]⟩]⟩
      (by decide),
   C4_hidden_dirs_skipped.2 [] [] "Artist" true [] []
      ⟨".hiddenAlbum", true, [⟨"b.mp3", false⟩]⟩ (by decide)⟩

/-- C7: when the configured root path is missing or not a directory, the
program prints diagnostics to standard output and terminates without
invoking the traversal and without writing any output file. -/
theorem C7_invalid_root :
    runMain none =
      { printed := [missingMsg1, missingMsg2], wrote := none,
        invokedBuildIndex := false } ∧
    (runMain none).printed ≠ [] := by
  exact ⟨rfl, by decide⟩

/-- C8: a directory-listing failure anywhere during the traversal is not
caught: the whole run aborts with the error propagating and no output file
— not even a partial index — is written. -/
theorem C8_listing_error_aborts (l : Except String (List ArtistDirE)) (e : String)
    (h : buildIndexE l = .error e) :
    runMainE (some l) =
      { printed := [startMsg], wrote := none, raised := some e } := by
  simp [runMainE, h]

/-- C8 witness: an artist directory whose listing raises aborts the run
with nothing written. -/
theorem C8_listing_error_aborts_witness :
    buildIndexE (.ok [⟨"Artist", true, .error "Permission denied"⟩]) =
        .error "Permission denied" ∧
    runMainE (some (.ok [⟨"Artist", true, .error "Permission denied"⟩])) =
      { printed := [startMsg], wrote := none, raised := some "Permission denied" } :=
  ⟨rfl, C8_listing_error_aborts _ "Permission denied" rfl⟩


/-- C2: two artist/album directory trees whose artist and album names are
byte-distinct but NFC-normalize to the same composed form produce exactly
one AlbumRecord, whose song list is the union (in traversal order) of the
matching files found under both trees — not two separate records. -/
theorem C2_album_merge (a1 a2 b1 b2 : String) (F1 F2 : List FileEntry)
    (_hba : a1 ≠ a2) (_hbb : b1 ≠ b2)
    (hna : nfc a1 = nfc a2) (hnb : nfc b1 = nfc b2)
    (ha1 : strStartsWith a1 "." = false) (ha2 : strStartsWith a2 "." = false)
    (hb1 : strStartsWith b1 "." = false) (hb2 : strStartsWith b2 "." = false) :
    buildIndex [⟨a1, true, [⟨b1, true, F1⟩]⟩, ⟨a2, true, [⟨b2, true, F2⟩]⟩] =
      [{ name := nfc b1, artist := nfc a1,
         songs := mkSongs (nfc a1) (nfc b1) (F1 ++ F2) 0 }] := by
  have h1 : processArtist ⟨a1, true, [⟨b1, true, F1⟩]⟩ ([], 0) =
      ([(nfc a1 ++ "-" ++ nfc b1,
         { name := nfc b1, artist := nfc a1,
           songs := mkSongs (nfc a1) (nfc b1) F1 0 })],
       countAllowed F1) := scanAlbums_single a1 b1 F1 ha1 hb1
  have e : scanAlbums [⟨a1, true, [⟨b1, true, F1⟩]⟩, ⟨a2, true, [⟨b2, true, F2⟩]⟩] =
      processAlbum a2 ⟨b2, true, F2⟩
        ([(nfc a1 ++ "-" ++ nfc b1,
           { name := nfc b1, artist := nfc a1,
             songs := mkSongs (nfc a1) (nfc b1) F1 0 })],
         countAllowed F1) := by
    show processArtist ⟨a2, true, [⟨b2, true, F2⟩]⟩
        (processArtist ⟨a1, true, [⟨b1, true, F1⟩]⟩ ([], 0)) = _
    rw [h1]
    unfold processArtist
    simp [ha2]
  unfold buildIndex
  rw [e, processAlbum_visible _ _ _ rfl hb2]
  simp only [← hna, ← hnb, findAlbum]
  simp only [if_true]
  rw [processSongs_eq, appendSongs_singleton_self]
  rw [mkSongs_append]
  simp

/-- C2 witness: composed and decomposed accent spellings of the same artist
and album merge into one album holding the files of both trees. -/
theorem C2_album_merge_witness :
    ("Café Tacvba" : String) ≠ "Cafe\u0301 Tacvba" ∧
    ("Ré" : String) ≠ "Re\u0301" ∧
    nfc "Café Tacvba" = nfc "Cafe\u0301 Tacvba" ∧ nfc "Ré" = nfc "Re\u0301" ∧
    buildIndex [⟨"Café Tacvba", true, [⟨"Ré", true, [⟨"01.mp3", false⟩]⟩]⟩,
                ⟨"Cafe\u0301 Tacvba", true, [⟨"Re\u0301", true, [⟨"02.mp3", false⟩]⟩]⟩] =
      [{ name := nfc "Ré", artist := nfc "Café Tacvba",
         songs := mkSongs (nfc "Café Tacvba") (nfc "Ré")
           [⟨"01.mp3", false⟩, ⟨"02.mp3", false⟩] 0 }] :=
  ⟨by decide, by decide, by decide, by decide,
   C2_album_merge "Café Tacvba" "Cafe\u0301 Tacvba" "Ré" "Re\u0301"
     [⟨"01.mp3", false⟩] [⟨"02.mp3", false⟩]
     (by decide) (by decide) (by decide) (by decide)
     (by decide) (by decide) (by decide) (by decide)⟩

/-- C1 counterexample: with artist `a-b` / album `c` and artist `a` /
album `b-c`, whose concatenated album keys both read `a-b-c`, one
AlbumRecord ends up holding two songs whose originating normalized
(artist, album) directory pairs differ — so two distinct normalized pairs
can share one album record. -/
theorem C1_counterexample :
    ∃ rec ∈ buildIndex
        [⟨"a-b", true, [⟨"c", true, [⟨"x.mp3", false⟩]⟩]⟩,
         ⟨"a", true, [⟨"b-c", true, [⟨"y.mp3", false⟩]⟩]⟩],
      ∃ s1 ∈ rec.songs, ∃ s2 ∈ rec.songs,
        ¬(s1.artist = s2.artist ∧ s1.album = s2.album) := by decide

/-- C1 amended: two songs in the same AlbumRecord agree on the album key —
the concatenation normalizedArtist ++ "-" ++ normalizedAlbum of their
originating directory pair — though not necessarily on the pair itself,
since distinct pairs can concatenate to the same key. -/
theorem C1_amended_songs_share_key (root : List ArtistDir) :
    ∀ rec ∈ buildIndex root, ∀ s1 ∈ rec.songs, ∀ s2 ∈ rec.songs,
      s1.artist ++ "-" ++ s1.album = s2.artist ++ "-" ++ s2.album := by
  intro rec hrec s1 h1 s2 h2
  have hinv : KeyInv (scanAlbums root).1 :=
    foldl_inv (Q := fun st => KeyInv st.1)
      (fun st art hst => keyInv_processArtist art st hst) root ([], 0) keyInv_nil
  simp only [buildIndex] at hrec
  rcases List.mem_map.mp hrec with ⟨p, hp, rfl⟩
  rw [hinv p hp s1 h1, hinv p hp s2 h2]

/-- C1 amended witness: the two colliding-key songs share the key
`a-b-c` even though their originating pairs differ. -/
theorem C1_amended_songs_share_key_witness :
    ({ id := 0, title := "x", artist := "a-b", album := "c",
       relativePath := "a-b/c/x.mp3" } : SongRecord).artist ++ "-" ++
      ({ id := 0, title := "x", artist := "a-b", album := "c",
         relativePath := "a-b/c/x.mp3" } : SongRecord).album =
    ({ id := 1, title := "y", artist := "a", album := "b-c",
       relativePath := "a/b-c/y.mp3" } : SongRecord).artist ++ "-" ++
      ({ id := 1, title := "y", artist := "a", album := "b-c",
         relativePath := "a/b-c/y.mp3" } : SongRecord).album :=
  C1_amended_songs_share_key
    [⟨"a-b", true, [⟨"c", true, [⟨"x.mp3", false⟩]⟩]⟩,
     ⟨"a", true, [⟨"b-c", true, [⟨"y.mp3", false⟩]⟩]⟩]
    { name := "c", artist := "a-b",
      songs := [{ id := 0, title := "x", artist := "a-b", album := "c",
                  relativePath := "a-b/c/x.mp3" },
                { id := 1, title := "y", artist := "a", album := "b-c",
                  relativePath := "a/b-c/y.mp3" }] }
    (by decide)
    { id := 0, title := "x", artist := "a-b", album := "c",
      relativePath := "a-b/c/x.mp3" } (by decide)
    { id := 1, title := "y", artist := "a", album := "b-c",
      relativePath := "a/b-c/y.mp3" } (by decide)

/-- C6: within one run, the ids of the N included songs are pairwise
distinct (uniqueness within a single generated index; the fresh-identifier
supply is indexed by a run-local counter, so no cross-run stability is
claimed). -/
theorem C6_ids_pairwise_distinct (root : List ArtistDir) :
    (indexIds (buildIndex root)).Nodup := by
  have h := foldl_inv
      (Q := fun st : Albums × Nat =>
        (albumIds st.1).Nodup ∧ ∀ i ∈ albumIds st.1, i < st.2)
      (fun st art hst => idInv_processArtist art st hst.1 hst.2)
      root ([], 0) ⟨by simp [albumIds], by simp [albumIds]⟩
  unfold buildIndex
  rw [indexIds_map_snd]
  exact h.1
end MusicIndex
